import Mathlib

attribute [local semireducible] Rat.add Rat.mul Rat.sub Rat.inv

/-
Shallow embedding of the spike-detection core of the recording-trimmer
repository (src/analysis.py).

Modelling conventions:
- Python floats are modelled as exact rationals.  The float value -inf,
  used as a sentinel baseline, is modelled by the `none` case of an
  `Option`-valued baseline; since every comparison in the source compares a
  finite window average against `baseline + threshold`, and
  -inf + threshold = -inf in IEEE arithmetic, the comparison
  `spike_avg > avg_before + loudness_threshold` is always true when the
  baseline is the sentinel.  This is encoded in `isCandidate`.
- Python exceptions that can escape the scan functions are modelled with
  `Except PyErr`: `valueError` models the ValueError raised by formatting
  the string pass value with the `.2f` format code in `log_buffer`, and
  `indexError` models list indexing out of range (Python list indexing with
  a negative index wraps around, which `pyIdx` reproduces).
- The distinct skip messages returned by the scans are modelled by the
  tags of `SkipMsg`; the diagnostic trail emitted through `logger.verbose`
  is modelled as the list of `Entry` records that `log_buffer` renders.
- `samples_per_sec` is the hard-coded constant 10 of the source; the
  confirm offsets have Python type List[int], so
  `int(round(offset * samples_per_sec))` is exactly `10 * offset`.
-/
/-- Exceptions that can escape the scan functions. -/
inductive PyErr
  | valueError
  | indexError
  deriving DecidableEq, Repr

/-- The distinct "Skipping: ..." messages the scans return as their first
component (modelled as tags; the source returns descriptive strings). -/
inductive SkipMsg
  | invalidWindow
  | notEnoughSamples
  | skipExceeds
  | noEndPart
  deriving DecidableEq, Repr

/-- The pass_val field of a buffered candidate: either the string "-inf"
(dynamic scan with no baseline yet, which the log formatter cannot render
with .2f), the float -inf (fixed-end scan with an empty lecture part,
which renders fine), or a finite number. -/
inductive PassVal
  | ninfStr
  | ninfFloat
  | num (q : ℚ)
  deriving DecidableEq, Repr, Inhabited

/-- One element of the confirm_results list of a candidate. -/
inductive ConfirmResult
  | outOfRange (offset : ℤ)
  | failLess (offset : ℤ) (confirm_avg : ℚ)
  | pass (offset : ℤ) (confirm_avg : ℚ)
  deriving DecidableEq, Repr

/-- A buffered candidate record, as appended to `buffer` in both scans
(the hms field of the source is a string rendering of time and is omitted). -/
structure Entry where
  status : Bool
  time : ℚ
  spike_avg : ℚ
  confirm_results : List ConfirmResult
  pass_val : PassVal
  pass_count : ℕ
  deriving DecidableEq, Repr, Inhabited

instance {e a : Type} [DecidableEq e] [DecidableEq a] : DecidableEq (Except e a) := fun x y =>
  match x, y with
  | .error e1, .error e2 =>
    if h : e1 = e2 then isTrue (by rw [h]) else isFalse (by simp [h])
  | .error e1, .ok a2 => isFalse (by simp)
  | .ok a1, .error e2 => isFalse (by simp)
  | .ok a1, .ok a2 =>
    if h : a1 = a2 then isTrue (by rw [h]) else isFalse (by simp [h])

/-- Python int() on a rational: truncation toward zero. -/
def pyInt (q : ℚ) : ℤ :=
  if 0 ≤ q then q.floor else -((-q).floor)

/-- Python list indexing xs[i]: non-negative indexes directly, negative
indexes from the end, out of range raises IndexError. -/
def pyIdx (xs : List ℚ) (i : ℤ) : Except PyErr ℚ :=
  if 0 ≤ i then
    if i < (xs.length : ℤ) then .ok (xs.getD i.toNat 0) else .error .indexError
  else
    if 0 ≤ (xs.length : ℤ) + i then .ok (xs.getD ((xs.length : ℤ) + i).toNat 0)
    else .error .indexError

/-- The body of the incremental sliding-sum loop of analysis.py lines
65-67 (and identically lines 204-206): starting at window index i with s
the sum of the window starting at i-1, emit n further window averages. -/
def slideFrom (vals : List ℚ) (w : ℕ) (s : ℚ) (i : ℕ) : ℕ → List ℚ
  | 0 => []
  | n + 1 =>
    let s2 := s + vals.getD (i + w - 1) 0 - vals.getD (i - 1) 0
    s2 / (w : ℚ) :: slideFrom vals w s2 (i + 1) n

/-- The rolling averages computed by both scans: seed with the sum of the
first w values, then slide (analysis.py lines 62-67 and 200-206). -/
def rolling_avgs (vals : List ℚ) (w : ℕ) : List ℚ :=
  let total_windows := vals.length - w + 1
  let win_sum := (vals.take w).sum
  win_sum / (w : ℚ) :: slideFrom vals w win_sum 1 (total_windows - 1)

/-- The sum of the w consecutive values starting at index i. -/
def windowSum (vals : List ℚ) (w i : ℕ) : ℚ :=
  ((vals.drop i).take w).sum

/-- Naive O(N*w) reference implementation of the rolling averages: the
direct mean of each window of w consecutive samples (spec section 8). -/
def naive_rolling_avgs (vals : List ℚ) (w : ℕ) : List ℚ :=
  (List.range (vals.length - w + 1)).map (fun i => windowSum vals w i / (w : ℚ))

/-- The pass_val recorded for a dynamic-scan candidate (analysis.py line
127): the string "-inf" when avg_before is the sentinel, otherwise
avg_before + loudness_threshold. -/
def dynPassVal (avg_before : Option ℚ) (loudness_threshold : ℚ) : PassVal :=
  match avg_before with
  | none => PassVal.ninfStr
  | some a => PassVal.num (a + loudness_threshold)

/-- The pass_val recorded for a fixed-end candidate (analysis.py line
249): lecture_avg + loudness_threshold, which is the float -inf when the
lecture part is empty. -/
def fixedPassVal (lecture_avg : Option ℚ) (loudness_threshold : ℚ) : PassVal :=
  match lecture_avg with
  | none => PassVal.ninfFloat
  | some a => PassVal.num (a + loudness_threshold)

/-- The spike test of analysis.py lines 97 and 219:
spike_avg > baseline + loudness_threshold, where a `none` baseline is the
float -inf (so the comparison is true for every finite spike_avg). -/
def isCandidate (baseline : Option ℚ) (loudness_threshold spike_avg : ℚ) : Bool :=
  match baseline with
  | none => true
  | some a => decide (a + loudness_threshold < spike_avg)

/-- Python max(buffer, key=lambda x: x[pass_count]): the first element
attaining the maximal pass_count (max replaces the current best only on a
strictly greater key). -/
def bestFail (buffer : List Entry) : Entry :=
  buffer.foldl (fun b e => if b.pass_count < e.pass_count then e else b)
    (buffer.headD default)

/-- log_buffer (analysis.py lines 17-35), modelled as the list of entries
it renders.  An empty buffer logs nothing.  If every entry is a Fail and
confirmed is false, only the best fail (highest pass_count) is rendered;
otherwise every entry is rendered.  Rendering an entry whose pass_val is
the string "-inf" raises ValueError, because the f-string formats
pass_val with the .2f format code, which is invalid for a str. -/
def logBufferE (buffer : List Entry) (confirmed : Bool) : Except PyErr (List Entry) :=
  if buffer.isEmpty then .ok []
  else if buffer.all (fun e => !e.status) && !confirmed then
    if (bestFail buffer).pass_val = PassVal.ninfStr then .error .valueError
    else .ok [bestFail buffer]
  else
    if buffer.all (fun e => decide (e.pass_val ≠ PassVal.ninfStr)) then .ok buffer
    else .error .valueError

/-- The confirm loop of analysis.py lines 104-118 (identical at lines
226-240): for each offset in order, confirm_i = i + int(round(offset *
samples_per_sec)) = i + 10 * offset (the offsets are ints and
samples_per_sec = 10); an index at or past the end fails with
"out of range" and stops; a confirm average strictly below the spike
average fails with the comparison and stops; otherwise the offset passes
and pass_count increments.  Returns (confirm_results, confirmed,
pass_count). -/
def confirmLoop (ravgs : List ℚ) (i : ℕ) (spike_avg : ℚ) :
    List ℤ → Except PyErr (List ConfirmResult × Bool × ℕ)
  | [] => .ok ([], true, 0)
  | o :: rest =>
    let confirm_i : ℤ := (i : ℤ) + 10 * o
    if (ravgs.length : ℤ) ≤ confirm_i then
      .ok ([ConfirmResult.outOfRange o], false, 0)
    else
      match pyIdx ravgs confirm_i with
      | .error e => .error e
      | .ok confirm_avg =>
        if confirm_avg < spike_avg then
          .ok ([ConfirmResult.failLess o confirm_avg], false, 0)
        else
          match confirmLoop ravgs i spike_avg rest with
          | .error e => .error e
          | .ok (rs, confirmed, pc) =>
            .ok (ConfirmResult.pass o confirm_avg :: rs, confirmed, pc + 1)

/-- Declarative description of a single confirm offset succeeding at
candidate index i: the confirm index is in range and its rolling average
is not strictly below the spike average. -/
def offsetPasses (ravgs : List ℚ) (i : ℕ) (spike_avg : ℚ) (o : ℤ) : Bool :=
  decide ((i : ℤ) + 10 * o < (ravgs.length : ℤ)) &&
    !decide (ravgs.getD ((i : ℤ) + 10 * o).toNat 0 < spike_avg)

/-- The mutable state threaded through the dynamic-scan walk
(analysis.py lines 80-85): the incremental baseline accumulators, the
per-second dedup buffer, the current second, and the emitted diagnostic
trail. -/
structure LoopState where
  sum_before : ℚ
  count_before : ℕ
  buffer : List Entry
  current_second : Option ℤ
  events : List Entry
  deriving DecidableEq, Repr, Inhabited

/-- avg_before of analysis.py line 94: sum_before / count_before, or the
float -inf sentinel (`none`) when count_before == 0. -/
def avgBefore (st : LoopState) : Option ℚ :=
  if 0 < st.count_before then some (st.sum_before / (st.count_before : ℚ)) else none

/-- The dynamic-scan walk of analysis.py lines 88-146, over the list of
remaining indices.  Returns the final state and the trim time (some t on
the first confirmed candidate, none if the walk completes). -/
def scanLoop (ravgs rtimes : List ℚ) (thr : ℚ) (confirm : List ℤ) :
    List ℕ → LoopState → Except PyErr (LoopState × Option ℚ)
  | [], st => .ok (st, none)
  | i :: rest, st =>
    let spike_time := rtimes.getD i 0
    let spike_second := pyInt spike_time
    let spike_avg := ravgs.getD i 0
    let avg_before := avgBefore st
    if isCandidate avg_before thr spike_avg then
      match confirmLoop ravgs i spike_avg confirm with
      | .error e => .error e
      | .ok (rs, confirmed, pc) =>
        let entry : Entry :=
          { status := confirmed, time := spike_time, spike_avg := spike_avg,
            confirm_results := rs, pass_val := dynPassVal avg_before thr,
            pass_count := pc }
        let step2 : Except PyErr (List Entry × Option ℤ × List Entry) :=
          if st.current_second ≠ some spike_second then
            match logBufferE st.buffer false with
            | .error e => .error e
            | .ok ev => .ok ([entry], some spike_second, st.events ++ ev)
          else .ok (st.buffer ++ [entry], st.current_second, st.events)
        match step2 with
        | .error e => .error e
        | .ok (buf2, cs2, ev2) =>
          if confirmed then
            match logBufferE buf2 true with
            | .error e => .error e
            | .ok ev3 =>
              .ok ({ st with
                       buffer := [], current_second := cs2,
                       events := ev2 ++ ev3 }, some spike_time)
          else
            scanLoop ravgs rtimes thr confirm rest
              { sum_before := st.sum_before + spike_avg,
                count_before := st.count_before + 1,
                buffer := buf2, current_second := cs2, events := ev2 }
    else
      scanLoop ravgs rtimes thr confirm rest
        { st with sum_before := st.sum_before + spike_avg,
                  count_before := st.count_before + 1 }

/-- analyze_file_dynamic_scan (analysis.py lines 39-155).  The result is
the diagnostic trail, the skip message (first component of the Python
return value) and the trim time (second component); exceptions escaping
the scan are modelled by the error case. -/
def analyze_file_dynamic_scan (data : List (ℚ × ℚ)) (loudness_threshold : ℚ)
    (window_size : ℤ) (confirm_seconds : List ℤ) (skip_mins : ℕ) :
    Except PyErr (List Entry × Option SkipMsg × Option ℚ) :=
  if window_size ≤ 0 ∨ (data.length : ℤ) ≤ window_size then
    .ok ([], some .invalidWindow, none)
  else
    let times := data.map Prod.fst
    let vals := data.map Prod.snd
    let total_windows : ℤ := (vals.length : ℤ) - window_size + 1
    if total_windows ≤ 0 then .ok ([], some .notEnoughSamples, none)
    else
      let ravgs := rolling_avgs vals window_size.toNat
      let rtimes := times.take total_windows.toNat
      let min_start_sample := skip_mins * 60 * 10
      if ravgs.length ≤ min_start_sample then .ok ([], some .skipExceeds, none)
      else
        let st0 : LoopState :=
          { sum_before := (ravgs.take min_start_sample).sum,
            count_before := min_start_sample,
            buffer := [], current_second := none, events := [] }
        match scanLoop ravgs rtimes loudness_threshold confirm_seconds
            (List.range' min_start_sample (ravgs.length - min_start_sample)) st0 with
        | .error e => .error e
        | .ok (st, trim_time) =>
          match logBufferE st.buffer false with
          | .error e => .error e
          | .ok ev => .ok (st.events ++ ev, none, trim_time)

/-- The single-pass partition of analysis.py lines 171-179: accumulate
the sum and count of loudness values with time < analysis_start and
collect the remaining samples, in order, as the end part. -/
def partitionLecture (data : List (ℚ × ℚ)) (analysis_start : ℚ) :
    ℚ × ℕ × List (ℚ × ℚ) :=
  data.foldl
    (fun acc p =>
      if p.1 < analysis_start then (acc.1 + p.2, acc.2.1 + 1, acc.2.2)
      else (acc.1, acc.2.1, acc.2.2 ++ [p]))
    (0, 0, [])

/-- Declarative baseline of the fixed-end scan, following the spec: the
plain mean of all loudness values with time strictly before
analysis_start, or the sentinel when none exist. -/
def lectureAvgSpec (data : List (ℚ × ℚ)) (analysis_start : ℚ) : Option ℚ :=
  let lec := data.filter (fun p => decide (p.1 < analysis_start))
  if lec.isEmpty then none
  else some ((lec.map Prod.snd).sum / (lec.length : ℚ))

/-- The state threaded through the fixed-end walk (analysis.py lines
211-213): no baseline accumulators, only the dedup buffer, the current
second, and the trail. -/
structure FixedState where
  buffer : List Entry
  current_second : Option ℤ
  events : List Entry
  deriving DecidableEq, Repr, Inhabited

/-- The fixed-end walk of analysis.py lines 214-264: identical to the
dynamic walk except that the comparison baseline lecture_avg is a fixed
parameter, never updated, and the recorded pass_val is
lecture_avg + threshold (a float, possibly -inf). -/
def fixedLoop (ravgs rtimes : List ℚ) (lecture_avg : Option ℚ) (thr : ℚ)
    (confirm : List ℤ) : List ℕ → FixedState → Except PyErr (FixedState × Option ℚ)
  | [], st => .ok (st, none)
  | i :: rest, st =>
    let spike_time := rtimes.getD i 0
    let spike_second := pyInt spike_time
    let spike_avg := ravgs.getD i 0
    if isCandidate lecture_avg thr spike_avg then
      match confirmLoop ravgs i spike_avg confirm with
      | .error e => .error e
      | .ok (rs, confirmed, pc) =>
        let entry : Entry :=
          { status := confirmed, time := spike_time, spike_avg := spike_avg,
            confirm_results := rs, pass_val := fixedPassVal lecture_avg thr,
            pass_count := pc }
        let step2 : Except PyErr (List Entry × Option ℤ × List Entry) :=
          if st.current_second ≠ some spike_second then
            match logBufferE st.buffer false with
            | .error e => .error e
            | .ok ev => .ok ([entry], some spike_second, st.events ++ ev)
          else .ok (st.buffer ++ [entry], st.current_second, st.events)
        match step2 with
        | .error e => .error e
        | .ok (buf2, cs2, ev2) =>
          if confirmed then
            match logBufferE buf2 true with
            | .error e => .error e
            | .ok ev3 =>
              .ok ({ buffer := [], current_second := cs2,
                     events := ev2 ++ ev3 }, some spike_time)
          else
            fixedLoop ravgs rtimes lecture_avg thr confirm rest
              { buffer := buf2, current_second := cs2, events := ev2 }
    else
      fixedLoop ravgs rtimes lecture_avg thr confirm rest st

/-- analyze_file_fixed_end (analysis.py lines 159-273), with the same
result shape as the dynamic scan. -/
def analyze_file_fixed_end (data : List (ℚ × ℚ)) (duration : ℚ)
    (loudness_threshold : ℚ) (window_size : ℤ) (confirm_seconds : List ℤ)
    (analysis_minutes : ℕ) :
    Except PyErr (List Entry × Option SkipMsg × Option ℚ) :=
  let analysis_start : ℚ := max 0 (duration - (analysis_minutes : ℚ) * 60)
  let p := partitionLecture data analysis_start
  let sum_lecture := p.1
  let count_lecture := p.2.1
  let end_part := p.2.2
  let lecture_avg : Option ℚ :=
    if 0 < count_lecture then some (sum_lecture / (count_lecture : ℚ)) else none
  if end_part.isEmpty then .ok ([], some .noEndPart, none)
  else
    let end_times := end_part.map Prod.fst
    let end_ms := end_part.map Prod.snd
    if window_size ≤ 0 ∨ (end_ms.length : ℤ) ≤ window_size then
      .ok ([], some .invalidWindow, none)
    else
      let w := window_size.toNat
      let total_windows := end_ms.length - w + 1
      let ravgs := rolling_avgs end_ms w
      let rtimes := end_times.take total_windows
      match fixedLoop ravgs rtimes lecture_avg loudness_threshold confirm_seconds
          (List.range ravgs.length)
          { buffer := [], current_second := none, events := [] } with
      | .error e => .error e
      | .ok (st, trim_time) =>
        match logBufferE st.buffer false with
        | .error e => .error e
        | .ok ev => .ok (st.events ++ ev, none, trim_time)

def ex1From (k : ℕ) (t : ℚ) : ℕ → List (ℚ × ℚ)
  | 0 => []
  | n + 1 => (t, if k < 60 then (-30 : ℚ) else -10) :: ex1From (k + 1) (t + 1/10) n

def ex1Data : List (ℚ × ℚ) := ex1From 0 0 100

def entA : Entry :=
  { status := false, time := 71/10, spike_avg := -20, confirm_results := [],
    pass_val := PassVal.num (-18), pass_count := 0 }

def entB : Entry :=
  { status := false, time := 74/10, spike_avg := -19, confirm_results := [],
    pass_val := PassVal.num (-18), pass_count := 2 }

def entC : Entry :=
  { status := false, time := 78/10, spike_avg := -21, confirm_results := [],
    pass_val := PassVal.num (-18), pass_count := 1 }

def wstC4 : LoopState :=
  { sum_before := 2, count_before := 1, buffer := [], current_second := none,
    events := [] }

def wstC6 : LoopState :=
  { sum_before := -100, count_before := 1, buffer := [], current_second := none,
    events := [] }

theorem sum_take_succ_getD (l : List ℚ) (i : ℕ) (h : i < l.length) :
    (l.take (i + 1)).sum = (l.take i).sum + l.getD i 0 := by
  rw [List.take_succ, List.sum_append, List.getElem?_eq_getElem h]
  simp [List.getD_eq_getElem?_getD, List.getElem?_eq_getElem h]

theorem getD_drop (l : List ℚ) (i j : ℕ) :
    (l.drop i).getD j 0 = l.getD (i + j) 0 := by
  rw [List.getD_eq_getElem?_getD, List.getD_eq_getElem?_getD, List.getElem?_drop]

theorem windowSum_succ (vals : List ℚ) (w i : ℕ) (hw : 0 < w)
    (h : i + w < vals.length) :
    windowSum vals w (i + 1) =
      windowSum vals w i + vals.getD (i + w) 0 - vals.getD i 0 := by
  obtain ⟨w0, rfl⟩ : ∃ w0, w = w0 + 1 := ⟨w - 1, by omega⟩
  have hlen : (vals.drop i).length = vals.length - i := List.length_drop i vals
  obtain ⟨a, l2, hal⟩ : ∃ a l2, vals.drop i = a :: l2 := by
    cases hd : vals.drop i with
    | nil =>
      exfalso
      have h2 := congrArg List.length hd
      rw [hlen] at h2
      simp at h2
      omega
    | cons a l2 => exact ⟨a, l2, rfl⟩
  have hdrop1 : vals.drop (i + 1) = l2 := by
    have h2 := List.drop_drop 1 i vals
    rw [← h2, hal]
    rfl
  have hl2len : l2.length = vals.length - i - 1 := by
    have h2 := congrArg List.length hal
    rw [hlen] at h2
    simp at h2
    omega
  have ha : a = vals.getD i 0 := by
    have h3 : (vals.drop i).getD 0 0 = a := by rw [hal]; rfl
    rw [getD_drop, Nat.add_zero] at h3
    exact h3.symm
  have hgd : l2.getD w0 0 = vals.getD (i + (w0 + 1)) 0 := by
    rw [← hdrop1, getD_drop]
    congr 1
    omega
  unfold windowSum
  rw [hdrop1, hal, List.take_succ_cons, List.sum_cons,
    sum_take_succ_getD l2 w0 (by omega), ha, hgd]
  ring

theorem slideFrom_length (vals : List ℚ) (w : ℕ) :
    ∀ (n : ℕ) (s : ℚ) (i : ℕ), (slideFrom vals w s i n).length = n := by
  intro n
  induction n with
  | zero => intro s i; rfl
  | succ m ih => intro s i; simp [slideFrom, ih]

theorem rolling_avgs_length (vals : List ℚ) (w : ℕ) :
    (rolling_avgs vals w).length = vals.length - w + 1 := by
  simp [rolling_avgs, slideFrom_length]

theorem slideFrom_eq (vals : List ℚ) (w : ℕ) (hw : 0 < w) :
    ∀ (n i : ℕ), 1 ≤ i → i + n + w ≤ vals.length + 1 →
      slideFrom vals w (windowSum vals w (i - 1)) i n =
        (List.range' i n).map (fun j => windowSum vals w j / (w : ℚ)) := by
  intro n
  induction n with
  | zero => intro i _ _; rfl
  | succ m ih =>
    intro i hi hbound
    obtain ⟨i0, rfl⟩ : ∃ i0, i = i0 + 1 := ⟨i - 1, by omega⟩
    have e1 : i0 + 1 + w - 1 = i0 + w := by omega
    have hw2 : windowSum vals w i0 + vals.getD (i0 + 1 + w - 1) 0 -
        vals.getD i0 0 = windowSum vals w (i0 + 1) := by
      rw [e1, windowSum_succ vals w i0 hw (by omega)]
    have hrange : List.range' (i0 + 1) (m + 1) =
        (i0 + 1) :: List.range' (i0 + 2) m := List.range'_succ (i0 + 1) m 1
    rw [slideFrom]
    simp only [Nat.add_sub_cancel]
    rw [hw2, hrange, List.map_cons]
    congr 1
    have h3 := ih (i0 + 2) (by omega) (by omega)
    simpa using h3

theorem rolling_avgs_eq (vals : List ℚ) (w : ℕ) (hw : 0 < w)
    (hlt : w < vals.length) :
    rolling_avgs vals w = naive_rolling_avgs vals w := by
  unfold rolling_avgs naive_rolling_avgs
  have hs0 : (vals.take w).sum = windowSum vals w 0 := by
    unfold windowSum
    rw [List.drop_zero]
  have htw : vals.length - w + 1 - 1 = vals.length - w := by omega
  have hsl := slideFrom_eq vals w hw (vals.length - w) 1 (by omega) (by omega)
  simp only [Nat.sub_self] at hsl
  have hr : List.range' 0 (vals.length - w + 1) = 0 :: List.range' 1 (vals.length - w) :=
    List.range'_succ 0 (vals.length - w) 1
  dsimp only
  rw [htw, hs0, hsl, List.range_eq_range', hr, List.map_cons]

theorem pyIdx_nonneg (xs : List ℚ) (ci : ℤ) (h0 : 0 ≤ ci)
    (hlt : ci < (xs.length : ℤ)) : pyIdx xs ci = .ok (xs.getD ci.toNat 0) := by
  unfold pyIdx
  rw [if_pos h0, if_pos hlt]

theorem scanLoop_confirmed_halt (ravgs rtimes : List ℚ) (thr : ℚ)
    (confirm : List ℤ) (i : ℕ) (st : LoopState) (rs : List ConfirmResult)
    (pc : ℕ) (hc : isCandidate (avgBefore st) thr (ravgs.getD i 0) = true)
    (hcf : confirmLoop ravgs i (ravgs.getD i 0) confirm = .ok (rs, true, pc)) :
    ∃ res, (∀ rest : List ℕ,
        scanLoop ravgs rtimes thr confirm (i :: rest) st = res) ∧
      ((∃ e, res = Except.error e) ∨
       (∃ st2, res = Except.ok (st2, some (rtimes.getD i 0)))) := by
  by_cases hcs : st.current_second ≠ some (pyInt (rtimes.getD i 0))
  · rcases hlog : logBufferE st.buffer false with e | ev
    · refine ⟨Except.error e, fun rest => ?_, Or.inl ⟨e, rfl⟩⟩
      rw [scanLoop]
      dsimp only
      rw [if_pos hc, hcf]
      dsimp only
      rw [if_pos hcs, hlog]
    · rcases hlog2 : logBufferE [({ status := true, time := rtimes.getD i 0, spike_avg := ravgs.getD i 0, confirm_results := rs, pass_val := dynPassVal (avgBefore st) thr, pass_count := pc } : Entry)] true with e2 | ev3
      · refine ⟨Except.error e2, fun rest => ?_, Or.inl ⟨e2, rfl⟩⟩
        rw [scanLoop]
        dsimp only
        rw [if_pos hc, hcf]
        dsimp only
        rw [if_pos hcs, hlog]
        dsimp only
        rw [if_pos rfl]
        simp only [hlog2]
      · refine ⟨Except.ok ({ st with buffer := [], current_second := some (pyInt (rtimes.getD i 0)), events := (st.events ++ ev) ++ ev3 }, some (rtimes.getD i 0)), fun rest => ?_, Or.inr ⟨_, rfl⟩⟩
        rw [scanLoop]
        dsimp only
        rw [if_pos hc, hcf]
        dsimp only
        rw [if_pos hcs, hlog]
        dsimp only
        rw [if_pos rfl]
        simp only [hlog2]
  · rcases hlog2 : logBufferE (st.buffer ++ [({ status := true, time := rtimes.getD i 0, spike_avg := ravgs.getD i 0, confirm_results := rs, pass_val := dynPassVal (avgBefore st) thr, pass_count := pc } : Entry)]) true with e2 | ev3
    · refine ⟨Except.error e2, fun rest => ?_, Or.inl ⟨e2, rfl⟩⟩
      rw [scanLoop]
      dsimp only
      rw [if_pos hc, hcf]
      dsimp only
      rw [if_neg hcs]
      dsimp only
      rw [if_pos rfl]
      simp only [hlog2]
    · refine ⟨Except.ok ({ st with buffer := [], current_second := st.current_second, events := st.events ++ ev3 }, some (rtimes.getD i 0)), fun rest => ?_, Or.inr ⟨_, rfl⟩⟩
      rw [scanLoop]
      dsimp only
      rw [if_pos hc, hcf]
      dsimp only
      rw [if_neg hcs]
      dsimp only
      rw [if_pos rfl]
      simp only [hlog2]

theorem fixedLoop_confirmed_halt (ravgs rtimes : List ℚ) (lecture_avg : Option ℚ)
    (thr : ℚ) (confirm : List ℤ) (i : ℕ) (st : FixedState)
    (rs : List ConfirmResult) (pc : ℕ)
    (hc : isCandidate lecture_avg thr (ravgs.getD i 0) = true)
    (hcf : confirmLoop ravgs i (ravgs.getD i 0) confirm = .ok (rs, true, pc)) :
    ∃ res, (∀ rest : List ℕ,
        fixedLoop ravgs rtimes lecture_avg thr confirm (i :: rest) st = res) ∧
      ((∃ e, res = Except.error e) ∨
       (∃ st2, res = Except.ok (st2, some (rtimes.getD i 0)))) := by
  by_cases hcs : st.current_second ≠ some (pyInt (rtimes.getD i 0))
  · rcases hlog : logBufferE st.buffer false with e | ev
    · refine ⟨Except.error e, fun rest => ?_, Or.inl ⟨e, rfl⟩⟩
      rw [fixedLoop]
      dsimp only
      rw [if_pos hc, hcf]
      dsimp only
      rw [if_pos hcs, hlog]
    · rcases hlog2 : logBufferE [({ status := true, time := rtimes.getD i 0, spike_avg := ravgs.getD i 0, confirm_results := rs, pass_val := fixedPassVal lecture_avg thr, pass_count := pc } : Entry)] true with e2 | ev3
      · refine ⟨Except.error e2, fun rest => ?_, Or.inl ⟨e2, rfl⟩⟩
        rw [fixedLoop]
        dsimp only
        rw [if_pos hc, hcf]
        dsimp only
        rw [if_pos hcs, hlog]
        dsimp only
        rw [if_pos rfl]
        simp only [hlog2]
      · refine ⟨Except.ok (({ buffer := [], current_second := some (pyInt (rtimes.getD i 0)), events := (st.events ++ ev) ++ ev3 } : FixedState), some (rtimes.getD i 0)), fun rest => ?_, Or.inr ⟨_, rfl⟩⟩
        rw [fixedLoop]
        dsimp only
        rw [if_pos hc, hcf]
        dsimp only
        rw [if_pos hcs, hlog]
        dsimp only
        rw [if_pos rfl]
        simp only [hlog2]
  · rcases hlog2 : logBufferE (st.buffer ++ [({ status := true, time := rtimes.getD i 0, spike_avg := ravgs.getD i 0, confirm_results := rs, pass_val := fixedPassVal lecture_avg thr, pass_count := pc } : Entry)]) true with e2 | ev3
    · refine ⟨Except.error e2, fun rest => ?_, Or.inl ⟨e2, rfl⟩⟩
      rw [fixedLoop]
      dsimp only
      rw [if_pos hc, hcf]
      dsimp only
      rw [if_neg hcs]
      dsimp only
      rw [if_pos rfl]
      simp only [hlog2]
    · refine ⟨Except.ok (({ buffer := [], current_second := st.current_second, events := st.events ++ ev3 } : FixedState), some (rtimes.getD i 0)), fun rest => ?_, Or.inr ⟨_, rfl⟩⟩
      rw [fixedLoop]
      dsimp only
      rw [if_pos hc, hcf]
      dsimp only
      rw [if_neg hcs]
      dsimp only
      rw [if_pos rfl]
      simp only [hlog2]

theorem partitionLecture_spec (data : List (ℚ × ℚ)) (astart : ℚ) :
    partitionLecture data astart =
      (((data.filter (fun p => decide (p.1 < astart))).map Prod.snd).sum,
       (data.filter (fun p => decide (p.1 < astart))).length,
       data.filter (fun p => !decide (p.1 < astart))) := by
  have haux : ∀ (l : List (ℚ × ℚ)) (sacc : ℚ) (cacc : ℕ) (eacc : List (ℚ × ℚ)),
      l.foldl (fun acc p =>
          if p.1 < astart then (acc.1 + p.2, acc.2.1 + 1, acc.2.2)
          else (acc.1, acc.2.1, acc.2.2 ++ [p])) (sacc, cacc, eacc) =
        (sacc + ((l.filter (fun p => decide (p.1 < astart))).map Prod.snd).sum,
         cacc + (l.filter (fun p => decide (p.1 < astart))).length,
         eacc ++ l.filter (fun p => !decide (p.1 < astart))) := by
    intro l
    induction l with
    | nil => intro sacc cacc eacc; simp
    | cons p rest ih =>
      intro sacc cacc eacc
      rw [List.foldl_cons]
      by_cases hp : p.1 < astart
      · rw [if_pos hp]
        dsimp only
        rw [ih]
        simp [List.filter_cons, hp]
        refine ⟨by ring, by omega⟩
      · rw [if_neg hp]
        dsimp only
        rw [ih]
        simp [List.filter_cons, hp]
  unfold partitionLecture
  rw [haux]
  simp

theorem foldl_bestFail_mem : ∀ (l : List Entry) (b : Entry),
    l.foldl (fun b e => if b.pass_count < e.pass_count then e else b) b = b ∨
    l.foldl (fun b e => if b.pass_count < e.pass_count then e else b) b ∈ l := by
  intro l
  induction l with
  | nil => intro b; exact Or.inl rfl
  | cons e l ih =>
    intro b
    rw [List.foldl_cons]
    rcases ih (if b.pass_count < e.pass_count then e else b) with h | h
    · rw [h]
      by_cases hc : b.pass_count < e.pass_count
      · rw [if_pos hc]
        exact Or.inr (List.mem_cons_self e l)
      · rw [if_neg hc]
        exact Or.inl rfl
    · exact Or.inr (List.mem_cons_of_mem e h)

theorem bestFail_mem (buffer : List Entry) (h : buffer ≠ []) :
    bestFail buffer ∈ buffer := by
  unfold bestFail
  rcases foldl_bestFail_mem buffer (buffer.headD default) with h2 | h2
  · rw [h2]
    cases buffer with
    | nil => exact absurd rfl h
    | cons a l => exact List.mem_cons_self a l
  · exact h2

theorem logBufferE_subset (buffer : List Entry) (confirmed : Bool)
    (ev : List Entry) (hok : logBufferE buffer confirmed = .ok ev) :
    ∀ e ∈ ev, e ∈ buffer := by
  unfold logBufferE at hok
  by_cases hemp : buffer.isEmpty
  · rw [if_pos hemp] at hok
    cases hok
    intro e he
    simp at he
  · rw [if_neg hemp] at hok
    by_cases hall : (buffer.all (fun e => !e.status) && !confirmed) = true
    · rw [if_pos hall] at hok
      by_cases hbf : (bestFail buffer).pass_val = PassVal.ninfStr
      · rw [if_pos hbf] at hok
        cases hok
      · rw [if_neg hbf] at hok
        cases hok
        intro e he
        rw [List.mem_singleton] at he
        rw [he]
        exact bestFail_mem buffer (by simpa [List.isEmpty_iff] using hemp)
    · rw [if_neg hall] at hok
      by_cases hfmt : buffer.all (fun e => decide (e.pass_val ≠ PassVal.ninfStr)) = true
      · rw [if_pos hfmt] at hok
        cases hok
        intro e he
        exact he
      · rw [if_neg hfmt] at hok
        cases hok

theorem fixedLoop_passval (ravgs rtimes : List ℚ) (lecture_avg : Option ℚ)
    (thr : ℚ) (confirm : List ℤ) :
    ∀ (idxs : List ℕ) (st st2 : FixedState) (trim : Option ℚ),
      (∀ e ∈ st.buffer, e.pass_val = fixedPassVal lecture_avg thr) →
      (∀ e ∈ st.events, e.pass_val = fixedPassVal lecture_avg thr) →
      fixedLoop ravgs rtimes lecture_avg thr confirm idxs st = .ok (st2, trim) →
      (∀ e ∈ st2.buffer, e.pass_val = fixedPassVal lecture_avg thr) ∧
      (∀ e ∈ st2.events, e.pass_val = fixedPassVal lecture_avg thr) := by
  intro idxs
  induction idxs with
  | nil =>
    intro st st2 trim hbuf hev hrun
    rw [fixedLoop] at hrun
    cases hrun
    exact ⟨hbuf, hev⟩
  | cons i rest ih =>
    intro st st2 trim hbuf hev hrun
    rw [fixedLoop] at hrun
    dsimp only at hrun
    by_cases hc : isCandidate lecture_avg thr (ravgs.getD i 0) = true
    · rw [if_pos hc] at hrun
      rcases hcf : confirmLoop ravgs i (ravgs.getD i 0) confirm with e | ⟨rs, confirmed, pc⟩
      · rw [hcf] at hrun
        cases hrun
      · rw [hcf] at hrun
        dsimp only at hrun
        rcases hconf : confirmed with _ | _
        · rw [hconf] at hrun
          by_cases hcs : st.current_second ≠ some (pyInt (rtimes.getD i 0))
          · rw [if_pos hcs] at hrun
            rcases hlog : logBufferE st.buffer false with e | ev
            · rw [hlog] at hrun
              cases hrun
            · rw [hlog] at hrun
              dsimp only at hrun
              rw [if_neg (by simp)] at hrun
              refine ih _ _ _ ?_ ?_ hrun
              · intro e he
                rw [List.mem_singleton] at he
                rw [he]
              · intro e he
                rcases List.mem_append.mp he with h | h
                · exact hev e h
                · exact hbuf e (logBufferE_subset _ _ _ hlog e h)
          · rw [if_neg hcs] at hrun
            dsimp only at hrun
            rw [if_neg (by simp)] at hrun
            refine ih _ _ _ ?_ ?_ hrun
            · intro e he
              rcases List.mem_append.mp he with h | h
              · exact hbuf e h
              · rw [List.mem_singleton] at h
                rw [h]
            · exact hev
        · rw [hconf] at hrun
          by_cases hcs : st.current_second ≠ some (pyInt (rtimes.getD i 0))
          · rw [if_pos hcs] at hrun
            rcases hlog : logBufferE st.buffer false with e | ev
            · rw [hlog] at hrun
              cases hrun
            · rw [hlog] at hrun
              dsimp only at hrun
              rw [if_pos rfl] at hrun
              rcases hlog2 : logBufferE [({ status := true, time := rtimes.getD i 0, spike_avg := ravgs.getD i 0, confirm_results := rs, pass_val := fixedPassVal lecture_avg thr, pass_count := pc } : Entry)] true with e2 | ev3
              · rw [hlog2] at hrun
                cases hrun
              · rw [hlog2] at hrun
                cases hrun
                refine ⟨by intro e he; simp at he, ?_⟩
                intro e he
                rcases List.mem_append.mp he with h | h
                · rcases List.mem_append.mp h with h2 | h2
                  · exact hev e h2
                  · exact hbuf e (logBufferE_subset _ _ _ hlog e h2)
                · have hm := logBufferE_subset _ _ _ hlog2 e h
                  rw [List.mem_singleton] at hm
                  rw [hm]
          · rw [if_neg hcs] at hrun
            dsimp only at hrun
            rw [if_pos rfl] at hrun
            rcases hlog2 : logBufferE (st.buffer ++ [({ status := true, time := rtimes.getD i 0, spike_avg := ravgs.getD i 0, confirm_results := rs, pass_val := fixedPassVal lecture_avg thr, pass_count := pc } : Entry)]) true with e2 | ev3
            · rw [hlog2] at hrun
              cases hrun
            · rw [hlog2] at hrun
              cases hrun
              refine ⟨by intro e he; simp at he, ?_⟩
              intro e he
              rcases List.mem_append.mp he with h | h
              · exact hev e h
              · have hm := logBufferE_subset _ _ _ hlog2 e h
                rcases List.mem_append.mp hm with h2 | h2
                · exact hbuf e h2
                · rw [List.mem_singleton] at h2
                  rw [h2]
    · rw [if_neg hc] at hrun
      exact ih _ _ _ hbuf hev hrun

theorem lectureAvg_eq (data : List (ℚ × ℚ)) (astart : ℚ) :
    (if 0 < (partitionLecture data astart).2.1 then
       some ((partitionLecture data astart).1 /
         ((partitionLecture data astart).2.1 : ℚ))
     else none) = lectureAvgSpec data astart := by
  rw [partitionLecture_spec]
  unfold lectureAvgSpec
  dsimp only
  by_cases h : data.filter (fun p => decide (p.1 < astart)) = []
  · rw [h]
    simp
  · have hlen : 0 < (data.filter (fun p => decide (p.1 < astart))).length :=
      List.length_pos.mpr h
    rw [if_pos hlen, if_neg (by simpa [List.isEmpty_iff] using h)]

/-- C1: for every loudness series and window size w with 0 < w < N, the
sliding-sum computation used by both scans produces exactly N - w + 1
rolling averages, equal to the naive reference implementation (the direct
mean of the w consecutive samples starting at each index), and the i-th
window timestamp is the timestamp of the window first sample. -/
theorem rolling_window_averages_correct (vals times : List ℚ) (w : ℕ)
    (hw : 0 < w) (hlt : w < vals.length) :
    (rolling_avgs vals w).length = vals.length - w + 1 ∧
    rolling_avgs vals w = naive_rolling_avgs vals w ∧
    ∀ i, i < vals.length - w + 1 →
      (rolling_avgs vals w).getD i 0 = ((vals.drop i).take w).sum / (w : ℚ) ∧
      (times.take (vals.length - w + 1)).getD i 0 = times.getD i 0 := by
  refine ⟨rolling_avgs_length vals w, rolling_avgs_eq vals w hw hlt, ?_⟩
  intro i hi
  constructor
  · rw [rolling_avgs_eq vals w hw hlt]
    unfold naive_rolling_avgs windowSum
    rw [List.getD_eq_getElem?_getD, List.getElem?_map, List.getElem?_range hi]
    rfl
  · rw [List.getD_eq_getElem?_getD, List.getD_eq_getElem?_getD,
      List.getElem?_take_of_lt hi]

theorem rolling_window_averages_correct_witness :
    0 < 2 ∧ 2 < [(1 : ℚ), 2, 3].length ∧
    rolling_avgs [(1 : ℚ), 2, 3] 2 = naive_rolling_avgs [(1 : ℚ), 2, 3] 2 :=
  ⟨by decide, by decide,
    (rolling_window_averages_correct [(1 : ℚ), 2, 3] [(1 : ℚ), 2, 3] 2
      (by decide) (by decide)).2.1⟩

/-- C2, counterexample: the claim that no index with count_before == 0 is
ever treated as a candidate spike or confirmed is false on the code: the
candidate test against the sentinel baseline returns true for a finite
average, and on a concrete flat series with skip 0 the first window fires,
is confirmed immediately, and logging its entry raises ValueError, so the
scan errors where the claim would require a clean no-candidate run. -/
theorem dynamic_sentinel_cex :
    isCandidate none (12 : ℚ) (-30) = true ∧
    analyze_file_dynamic_scan [((0 : ℚ), (0 : ℚ)), (1/10, 0), (2/10, 0), (3/10, 0)]
        12 1 [] 0 = .error .valueError := by
  constructor
  · rfl
  · decide

/-- C2, amended: the sentinel guarantees the opposite of the claim: at an
index where count_before == 0 the spike comparison succeeds
unconditionally, so a spike always fires before any baseline exists; in
particular, for every series with a valid window, skip 0 and no confirm
offsets, the first window is an immediately confirmed candidate and the
scan raises ValueError while logging its -inf pass value. -/
theorem dynamic_sentinel_always_fires (data : List (ℚ × ℚ)) (thr : ℚ) (w : ℤ)
    (hw : 0 < w) (hlt : w < (data.length : ℤ)) :
    analyze_file_dynamic_scan data thr w [] 0 = .error .valueError := by
  unfold analyze_file_dynamic_scan
  dsimp only
  rw [if_neg (by push_neg; exact ⟨hw, hlt⟩)]
  rw [if_neg (by rw [List.length_map]; omega)]
  rw [if_neg (by rw [rolling_avgs_length]; omega)]
  obtain ⟨m, hm⟩ : ∃ m, (rolling_avgs (data.map Prod.snd) w.toNat).length = m + 1 := by
    rw [rolling_avgs_length]
    exact ⟨(data.map Prod.snd).length - w.toNat, rfl⟩
  simp only [Nat.zero_mul, Nat.mul_zero, Nat.sub_zero, hm, List.range'_succ]
  rw [scanLoop]
  simp [avgBefore, isCandidate, confirmLoop, logBufferE, dynPassVal]

theorem dynamic_sentinel_always_fires_witness :
    (0 : ℤ) < 1 ∧ (1 : ℤ) < (([((0 : ℚ), (0 : ℚ)), (1/10, 0)]).length : ℤ) ∧
    analyze_file_dynamic_scan [((0 : ℚ), (0 : ℚ)), (1/10, 0)] 12 1 [] 0 =
      .error .valueError :=
  ⟨by decide, by decide,
    dynamic_sentinel_always_fires [((0 : ℚ), (0 : ℚ)), (1/10, 0)] 12 1
      (by decide) (by decide)⟩

set_option maxHeartbeats 4000000 in
set_option maxRecDepth 8000 in
/-- C3, counterexample: on the input of end-to-end example 1 (100 samples
at 10 per second, -30 LUFS before sample 60 and -10 LUFS after, threshold
12 dB, window 5, confirm offsets [1, 2] seconds, skip 0) the dynamic scan
does not return a confirmed spike near 6.0 s with no error: it raises
ValueError. -/
theorem example1_cex :
    analyze_file_dynamic_scan ex1Data 12 5 [1, 2] 0 = .error .valueError := by
  decide

set_option maxHeartbeats 4000000 in
set_option maxRecDepth 8000 in
/-- C3, amended: on the example 1 input the first window (t = 0.0) fires
as a candidate because no baseline exists yet, both confirm offsets pass
on the flat leading region, so it is confirmed immediately; logging the
confirmed candidate formats the string pass value -inf with the .2f format
code and raises ValueError, so the scan errors instead of returning a
spike near 6.0 s. -/
theorem example1_actual_behavior :
    analyze_file_dynamic_scan ex1Data 12 5 [1, 2] 0 = .error PyErr.valueError ∧
    confirmLoop (rolling_avgs (ex1Data.map Prod.snd) 5) 0 (-30) [1, 2] =
      .ok ([ConfirmResult.pass 1 (-30), ConfirmResult.pass 2 (-30)], true, 2) := by
  constructor
  · decide
  · decide

/-- C10: when a candidate fires in the dynamic scan while no baseline
exists (count_before == 0), the recorded pass value is the string -inf,
but the case is not handled silently: logging that buffer entry raises
ValueError and the scan does not return a normal result, as evaluated on a
concrete flat series. -/
theorem passval_ninf_logging_raises :
    dynPassVal none (12 : ℚ) = PassVal.ninfStr ∧
    analyze_file_dynamic_scan [((0 : ℚ), (-30 : ℚ)), (1/10, -30), (2/10, -30)]
        12 1 [] 0 = .error .valueError := by
  constructor
  · rfl
  · decide

/-- C4: in the dynamic scan, at every visited index i whose loop state
holds sum_before = sum of the first i rolling averages and
count_before = i (as established by the seed and maintained by the walk),
the comparison baseline avg_before equals the unweighted arithmetic mean
of all rolling averages strictly before i, including those of the skipped
leading region; and unless the walk halts at i (logging error or confirmed
trim), the state passed to the next iteration extends the invariant by
folding the rolling average at i into the running sum. -/
theorem dynamic_baseline_invariant (ravgs rtimes : List ℚ) (thr : ℚ)
    (confirm : List ℤ) (i : ℕ) (rest : List ℕ) (st : LoopState)
    (hi : i < ravgs.length)
    (hsum : st.sum_before = (ravgs.take i).sum) (hcount : st.count_before = i) :
    (0 < i → avgBefore st = some ((ravgs.take i).sum / (i : ℚ))) ∧
    ((∃ e, scanLoop ravgs rtimes thr confirm (i :: rest) st = .error e) ∨
     (∃ st2, scanLoop ravgs rtimes thr confirm (i :: rest) st =
        .ok (st2, some (rtimes.getD i 0))) ∨
     (∃ st2, scanLoop ravgs rtimes thr confirm (i :: rest) st =
          scanLoop ravgs rtimes thr confirm rest st2 ∧
        st2.sum_before = (ravgs.take (i + 1)).sum ∧ st2.count_before = i + 1)) := by
  have hstep : (ravgs.take (i + 1)).sum = (ravgs.take i).sum + ravgs.getD i 0 :=
    sum_take_succ_getD ravgs i hi
  constructor
  · intro hpos
    rw [avgBefore, if_pos (by omega : 0 < st.count_before), hsum, hcount]
  · rw [scanLoop]
    dsimp only
    by_cases hc : isCandidate (avgBefore st) thr (ravgs.getD i 0) = true
    · rw [if_pos hc]
      rcases hcf : confirmLoop ravgs i (ravgs.getD i 0) confirm with e | ⟨rs, confirmed, pc⟩
      · exact Or.inl ⟨e, rfl⟩
      · dsimp only
        by_cases hcs : st.current_second ≠ some (pyInt (rtimes.getD i 0))
        · rw [if_pos hcs]
          rcases hlog : logBufferE st.buffer false with e | ev
          · exact Or.inl ⟨e, rfl⟩
          · dsimp only
            rcases hcfm : confirmed with _ | _
            · rw [if_neg (by simp)]
              exact Or.inr (Or.inr ⟨_, rfl, by dsimp only; rw [hsum, hstep],
                by dsimp only; rw [hcount]⟩)
            · rw [if_pos rfl]
              rcases hlog2 : logBufferE
                  [{ status := true, time := rtimes.getD i 0,
                     spike_avg := ravgs.getD i 0, confirm_results := rs,
                     pass_val := dynPassVal (avgBefore st) thr,
                     pass_count := pc }] true with e2 | ev3
              · exact Or.inl ⟨e2, rfl⟩
              · exact Or.inr (Or.inl ⟨_, rfl⟩)
        · rw [if_neg hcs]
          dsimp only
          rcases hcfm : confirmed with _ | _
          · rw [if_neg (by simp)]
            exact Or.inr (Or.inr ⟨_, rfl, by dsimp only; rw [hsum, hstep],
              by dsimp only; rw [hcount]⟩)
          · rw [if_pos rfl]
            rcases hlog2 : logBufferE
                (st.buffer ++
                  [{ status := true, time := rtimes.getD i 0,
                     spike_avg := ravgs.getD i 0, confirm_results := rs,
                     pass_val := dynPassVal (avgBefore st) thr,
                     pass_count := pc }]) true with e2 | ev3
            · refine Or.inl ⟨e2, ?_⟩
              simp only [hlog2]
            · apply Or.inr
              apply Or.inl
              apply Exists.intro
              simp only [hlog2]
              rfl
    · rw [if_neg hc]
      exact Or.inr (Or.inr ⟨_, rfl, by dsimp only; rw [hsum, hstep],
        by dsimp only; rw [hcount]⟩)

theorem dynamic_baseline_invariant_witness :
    1 < [(2 : ℚ), 4].length ∧
    wstC4.sum_before = ([(2 : ℚ), 4].take 1).sum ∧
    wstC4.count_before = 1 ∧
    avgBefore wstC4 = some (([(2 : ℚ), 4].take 1).sum / ((1 : ℕ) : ℚ)) :=
  ⟨by decide, by decide, by decide,
    (dynamic_baseline_invariant [(2 : ℚ), 4] [(0 : ℚ), 1/10] 12 [] 1 [] wstC4
      (by decide) (by decide) (by decide)).1 (by decide)⟩

/-- C5: the confirm loop evaluates offsets in list order with confirm
index i + round(offset * samples_per_sec) = i + 10 * offset, is confirmed
exactly when every offset is in range with a confirm average not strictly
below the candidate average, records pass_count as the length of the
longest passing prefix of the offset list, and stops at the first failure:
the confirm_results list holds at most pass_count + 1 entries, so offsets
after the first failure are never evaluated. -/
theorem confirm_offsets_shortcircuit (ravgs : List ℚ) (i : ℕ) (spike_avg : ℚ)
    (offsets : List ℤ) (hpos : ∀ o ∈ offsets, 0 ≤ o) :
    ∃ rs pc, confirmLoop ravgs i spike_avg offsets =
        .ok (rs, offsets.all (offsetPasses ravgs i spike_avg), pc) ∧
      pc = (offsets.takeWhile (offsetPasses ravgs i spike_avg)).length ∧
      rs.length = min offsets.length (pc + 1) := by
  induction offsets with
  | nil => exact ⟨[], 0, rfl, rfl, rfl⟩
  | cons o rest ih =>
    have ho : 0 ≤ o := hpos o (List.mem_cons_self o rest)
    obtain ⟨rs2, pc2, heq, hpc2, hlen2⟩ :=
      ih (fun x hx => hpos x (List.mem_cons_of_mem o hx))
    by_cases hrange : (ravgs.length : ℤ) ≤ (i : ℤ) + 10 * o
    · have hop : offsetPasses ravgs i spike_avg o = false := by
        unfold offsetPasses
        rw [decide_eq_false (by omega)]
        rfl
      refine ⟨[ConfirmResult.outOfRange o], 0, ?_, ?_, ?_⟩
      · rw [confirmLoop, if_pos hrange, List.all_cons, hop]
        rfl
      · rw [List.takeWhile_cons, hop]
        rfl
      · simp only [List.length_cons, List.length_nil]
        omega
    · push_neg at hrange
      have hci : 0 ≤ (i : ℤ) + 10 * o := by positivity
      have hidx := pyIdx_nonneg ravgs ((i : ℤ) + 10 * o) hci hrange
      by_cases hless : ravgs.getD ((i : ℤ) + 10 * o).toNat 0 < spike_avg
      · have hop : offsetPasses ravgs i spike_avg o = false := by
          unfold offsetPasses
          rw [decide_eq_true hless]
          simp
        refine ⟨[ConfirmResult.failLess o (ravgs.getD ((i : ℤ) + 10 * o).toNat 0)],
          0, ?_, ?_, ?_⟩
        · rw [confirmLoop, if_neg (by omega), hidx]
          dsimp only
          rw [if_pos hless, List.all_cons, hop]
          rfl
        · rw [List.takeWhile_cons, hop]
          rfl
        · simp only [List.length_cons, List.length_nil]
          omega
      · have hop : offsetPasses ravgs i spike_avg o = true := by
          unfold offsetPasses
          rw [decide_eq_true hrange, decide_eq_false hless]
          rfl
        refine ⟨ConfirmResult.pass o (ravgs.getD ((i : ℤ) + 10 * o).toNat 0) :: rs2,
          pc2 + 1, ?_, ?_, ?_⟩
        · rw [confirmLoop, if_neg (by omega), hidx]
          dsimp only
          rw [if_neg hless, heq]
          dsimp only
          rw [List.all_cons, hop]
          rfl
        · rw [List.takeWhile_cons, hop]
          simp [hpc2]
        · simp only [List.length_cons, hlen2]
          omega

theorem confirm_offsets_shortcircuit_witness :
    (∀ o ∈ ([0] : List ℤ), 0 ≤ o) ∧
    (∃ rs pc, confirmLoop [(5 : ℚ), 5] 0 5 [0] =
        .ok (rs, ([0] : List ℤ).all (offsetPasses [(5 : ℚ), 5] 0 5), pc) ∧
      pc = (([0] : List ℤ).takeWhile (offsetPasses [(5 : ℚ), 5] 0 5)).length ∧
      rs.length = min ([0] : List ℤ).length (pc + 1)) :=
  ⟨by decide, confirm_offsets_shortcircuit [(5 : ℚ), 5] 0 5 [0] (by decide)⟩

/-- C6: both scans stop at the first confirmed candidate: if the walk
reaches an index whose candidate test and full confirmation succeed, the
outcome is identical across every possible continuation of the index list
(no later index is ever examined), and it is either a logging error or a
normal result carrying that index timestamp as the trim time; given two
independently confirmable spikes, the earlier one therefore decides the
result. -/
theorem first_confirmed_wins :
    (∀ (ravgs rtimes : List ℚ) (thr : ℚ) (confirm : List ℤ) (i : ℕ)
        (st : LoopState) (rs : List ConfirmResult) (pc : ℕ),
      isCandidate (avgBefore st) thr (ravgs.getD i 0) = true →
      confirmLoop ravgs i (ravgs.getD i 0) confirm = .ok (rs, true, pc) →
      ∀ rest rest2 : List ℕ,
        scanLoop ravgs rtimes thr confirm (i :: rest) st =
          scanLoop ravgs rtimes thr confirm (i :: rest2) st ∧
        ((∃ e, scanLoop ravgs rtimes thr confirm (i :: rest) st = .error e) ∨
         (∃ st2, scanLoop ravgs rtimes thr confirm (i :: rest) st =
            .ok (st2, some (rtimes.getD i 0))))) ∧
    (∀ (ravgs rtimes : List ℚ) (lecture_avg : Option ℚ) (thr : ℚ)
        (confirm : List ℤ) (i : ℕ) (st : FixedState) (rs : List ConfirmResult)
        (pc : ℕ),
      isCandidate lecture_avg thr (ravgs.getD i 0) = true →
      confirmLoop ravgs i (ravgs.getD i 0) confirm = .ok (rs, true, pc) →
      ∀ rest rest2 : List ℕ,
        fixedLoop ravgs rtimes lecture_avg thr confirm (i :: rest) st =
          fixedLoop ravgs rtimes lecture_avg thr confirm (i :: rest2) st ∧
        ((∃ e, fixedLoop ravgs rtimes lecture_avg thr confirm (i :: rest) st =
            .error e) ∨
         (∃ st2, fixedLoop ravgs rtimes lecture_avg thr confirm (i :: rest) st =
            .ok (st2, some (rtimes.getD i 0))))) := by
  constructor
  · intro ravgs rtimes thr confirm i st rs pc hc hcf rest rest2
    obtain ⟨res, hall, hres⟩ :=
      scanLoop_confirmed_halt ravgs rtimes thr confirm i st rs pc hc hcf
    refine ⟨(hall rest).trans (hall rest2).symm, ?_⟩
    rcases hres with ⟨e, he⟩ | ⟨st2, h2⟩
    · exact Or.inl ⟨e, by rw [hall rest, he]⟩
    · exact Or.inr ⟨st2, by rw [hall rest, h2]⟩
  · intro ravgs rtimes lecture_avg thr confirm i st rs pc hc hcf rest rest2
    obtain ⟨res, hall, hres⟩ :=
      fixedLoop_confirmed_halt ravgs rtimes lecture_avg thr confirm i st rs pc hc hcf
    refine ⟨(hall rest).trans (hall rest2).symm, ?_⟩
    rcases hres with ⟨e, he⟩ | ⟨st2, h2⟩
    · exact Or.inl ⟨e, by rw [hall rest, he]⟩
    · exact Or.inr ⟨st2, by rw [hall rest, h2]⟩

theorem first_confirmed_wins_witness :
    isCandidate (avgBefore wstC6) 0 ([(0 : ℚ)].getD 0 0) = true ∧
    confirmLoop [(0 : ℚ)] 0 ([(0 : ℚ)].getD 0 0) [] = .ok ([], true, 0) ∧
    scanLoop [(0 : ℚ)] [(0 : ℚ)] 0 [] (0 :: [1]) wstC6 =
      scanLoop [(0 : ℚ)] [(0 : ℚ)] 0 [] (0 :: [2]) wstC6 :=
  ⟨by decide, by decide,
    (first_confirmed_wins.1 [(0 : ℚ)] [(0 : ℚ)] 0 [] 0 wstC6 [] 0
      (by decide) (by decide) [1] [2]).1⟩

/-- C7: the fixed-end scan partition equals its declarative description:
the sum and count of loudness values with time strictly before
analysis_start = max 0 (duration - analysis_minutes * 60), with remaining
samples retained in order as the tail; an empty tail yields the
no-tail-data skip with no result; and every trail entry of a run that
returns normally carries the single fixed pass value lecture baseline plus
threshold, where the baseline is the plain mean of the pre-start loudness
values or the sentinel when none exist, never updated during the walk. -/
theorem fixed_end_baseline_partition :
    (∀ (data : List (ℚ × ℚ)) (astart : ℚ),
      partitionLecture data astart =
        (((data.filter (fun p => decide (p.1 < astart))).map Prod.snd).sum,
         (data.filter (fun p => decide (p.1 < astart))).length,
         data.filter (fun p => !decide (p.1 < astart)))) ∧
    (∀ (data : List (ℚ × ℚ)) (duration thr : ℚ) (w : ℤ) (confirm : List ℤ)
        (mins : ℕ),
      data.filter (fun p => !decide (p.1 < max 0 (duration - (mins : ℚ) * 60))) = [] →
      analyze_file_fixed_end data duration thr w confirm mins =
        .ok ([], some .noEndPart, none)) ∧
    (∀ (data : List (ℚ × ℚ)) (duration thr : ℚ) (w : ℤ) (confirm : List ℤ)
        (mins : ℕ) (trail : List Entry) (m : Option SkipMsg) (trim : Option ℚ),
      analyze_file_fixed_end data duration thr w confirm mins =
        .ok (trail, m, trim) →
      ∀ e ∈ trail, e.pass_val =
        fixedPassVal (lectureAvgSpec data (max 0 (duration - (mins : ℚ) * 60))) thr) := by
  refine ⟨partitionLecture_spec, ?_, ?_⟩
  · intro data duration thr w confirm mins hempty
    unfold analyze_file_fixed_end
    dsimp only
    rw [partitionLecture_spec]
    dsimp only
    rw [hempty]
    rfl
  · intro data duration thr w confirm mins trail m trim hok
    unfold analyze_file_fixed_end at hok
    dsimp only at hok
    split at hok
    · cases hok
      intro e he
      simp at he
    · split at hok
      · cases hok
        intro e he
        simp at he
      · split at hok
        · cases hok
        · rename_i stf trimf hfix
          split at hok
          · cases hok
          · rename_i ev hfin
            cases hok
            have hgood := fixedLoop_passval _ _
              (if 0 < (partitionLecture data
                  (max 0 (duration - (mins : ℚ) * 60))).2.1 then
                 some ((partitionLecture data
                     (max 0 (duration - (mins : ℚ) * 60))).1 /
                   ((partitionLecture data
                       (max 0 (duration - (mins : ℚ) * 60))).2.1 : ℚ))
               else none) thr confirm _ _ _ _
              (by intro e he; simp at he) (by intro e he; simp at he) hfix
            rw [lectureAvg_eq] at hgood
            intro e he
            rcases List.mem_append.mp he with h | h
            · exact hgood.2 e h
            · exact hgood.1 e (logBufferE_subset _ _ _ hfin e h)

theorem fixed_end_baseline_partition_witness :
    ([((0 : ℚ), (5 : ℚ))].filter
       (fun p => !decide (p.1 < max 0 (100 - ((0 : ℕ) : ℚ) * 60))) = []) ∧
    analyze_file_fixed_end [((0 : ℚ), 5)] 100 8 50 [] 0 =
      .ok ([], some .noEndPart, none) :=
  ⟨by decide, fixed_end_baseline_partition.2.1 [((0 : ℚ), 5)] 100 8 50 [] 0
    (by decide)⟩

/-- C8: a window size at most 0, or at least the series length (tail
length for the fixed-end scan), makes the scan return the invalid-window
skip message paired with no trim time, with no exception escaping; and a
skip point at or beyond the end of the rolling-average array returns the
skip-exceeds message with no trim time. -/
theorem boundary_config_errors :
    (∀ (data : List (ℚ × ℚ)) (thr : ℚ) (w : ℤ) (confirm : List ℤ) (skip : ℕ),
      w ≤ 0 ∨ (data.length : ℤ) ≤ w →
      analyze_file_dynamic_scan data thr w confirm skip =
        .ok ([], some .invalidWindow, none)) ∧
    (∀ (data : List (ℚ × ℚ)) (thr : ℚ) (w : ℤ) (confirm : List ℤ) (skip : ℕ),
      0 < w → w < (data.length : ℤ) →
      data.length - w.toNat + 1 ≤ skip * 60 * 10 →
      analyze_file_dynamic_scan data thr w confirm skip =
        .ok ([], some .skipExceeds, none)) ∧
    (∀ (data : List (ℚ × ℚ)) (duration thr : ℚ) (w : ℤ) (confirm : List ℤ)
        (mins : ℕ),
      data.filter
        (fun p => !decide (p.1 < max 0 (duration - (mins : ℚ) * 60))) ≠ [] →
      (w ≤ 0 ∨
        ((data.filter
          (fun p => !decide (p.1 < max 0 (duration - (mins : ℚ) * 60)))).length : ℤ) ≤ w) →
      analyze_file_fixed_end data duration thr w confirm mins =
        .ok ([], some .invalidWindow, none)) := by
  refine ⟨?_, ?_, ?_⟩
  · intro data thr w confirm skip hw
    unfold analyze_file_dynamic_scan
    rw [if_pos hw]
  · intro data thr w confirm skip hw1 hw2 hskip
    unfold analyze_file_dynamic_scan
    dsimp only
    rw [if_neg (by push_neg; exact ⟨hw1, hw2⟩)]
    rw [if_neg (by rw [List.length_map]; omega)]
    rw [if_pos (by rw [rolling_avgs_length, List.length_map]; omega)]
  · intro data duration thr w confirm mins hne hw
    unfold analyze_file_fixed_end
    dsimp only
    rw [partitionLecture_spec]
    dsimp only
    rw [if_neg (by simpa [List.isEmpty_iff] using hne)]
    rw [if_pos (by rw [List.length_map]; exact hw)]

theorem boundary_config_errors_witness :
    ((0 : ℤ) ≤ 0 ∨ (([] : List (ℚ × ℚ)).length : ℤ) ≤ 0) ∧
    analyze_file_dynamic_scan [] 12 0 [] 0 = .ok ([], some .invalidWindow, none) :=
  ⟨Or.inl (by decide), boundary_config_errors.1 [] 12 0 [] 0 (Or.inl (by decide))⟩

/-- C9: when every buffered candidate of the current second is a Fail,
log_buffer emits exactly one entry: the first candidate attaining the
highest pass_count (Python max semantics); on the concrete same-second
Fail buffer with pass counts 0, 2 and 1, only the pass-count-2 entry is
retained; and whenever the dynamic walk returns a confirmed trim time, the
confirmed candidate flushed the buffer and the final buffer is empty. -/
theorem dedup_best_fail :
    (∀ buffer : List Entry, buffer ≠ [] →
      (∀ e ∈ buffer, e.status = false) →
      (bestFail buffer).pass_val ≠ PassVal.ninfStr →
      logBufferE buffer false = .ok [bestFail buffer]) ∧
    (logBufferE [entA, entB, entC] false = .ok [entB]) ∧
    (∀ (ravgs rtimes : List ℚ) (thr : ℚ) (confirm : List ℤ) (idxs : List ℕ)
        (st st2 : LoopState) (t : ℚ),
      scanLoop ravgs rtimes thr confirm idxs st = .ok (st2, some t) →
      st2.buffer = []) := by
  refine ⟨?_, by decide, ?_⟩
  · intro buffer hne hstat hfmt
    have hall : buffer.all (fun e => !e.status) = true := by
      rw [List.all_eq_true]
      intro e he
      rw [hstat e he]
      rfl
    unfold logBufferE
    rw [if_neg (by simpa [List.isEmpty_iff] using hne)]
    rw [if_pos (by rw [hall]; rfl)]
    rw [if_neg hfmt]
  · intro ravgs rtimes thr confirm idxs
    induction idxs with
    | nil =>
      intro st st2 t hrun
      rw [scanLoop] at hrun
      simp at hrun
    | cons i rest ih =>
      intro st st2 t hrun
      rw [scanLoop] at hrun
      dsimp only at hrun
      by_cases hc : isCandidate (avgBefore st) thr (ravgs.getD i 0) = true
      · rw [if_pos hc] at hrun
        rcases hcf : confirmLoop ravgs i (ravgs.getD i 0) confirm with e | ⟨rs, confirmed, pc⟩
        · rw [hcf] at hrun
          cases hrun
        · rw [hcf] at hrun
          dsimp only at hrun
          rcases hconf : confirmed with _ | _
          · rw [hconf] at hrun
            by_cases hcs : st.current_second ≠ some (pyInt (rtimes.getD i 0))
            · rw [if_pos hcs] at hrun
              rcases hlog : logBufferE st.buffer false with e | ev
              · rw [hlog] at hrun
                cases hrun
              · rw [hlog] at hrun
                dsimp only at hrun
                rw [if_neg (by simp)] at hrun
                exact ih _ _ _ hrun
            · rw [if_neg hcs] at hrun
              dsimp only at hrun
              rw [if_neg (by simp)] at hrun
              exact ih _ _ _ hrun
          · rw [hconf] at hrun
            by_cases hcs : st.current_second ≠ some (pyInt (rtimes.getD i 0))
            · rw [if_pos hcs] at hrun
              rcases hlog : logBufferE st.buffer false with e | ev
              · rw [hlog] at hrun
                cases hrun
              · rw [hlog] at hrun
                dsimp only at hrun
                rw [if_pos rfl] at hrun
                rcases hlog2 : logBufferE [({ status := true, time := rtimes.getD i 0, spike_avg := ravgs.getD i 0, confirm_results := rs, pass_val := dynPassVal (avgBefore st) thr, pass_count := pc } : Entry)] true with e2 | ev3
                · rw [hlog2] at hrun
                  cases hrun
                · rw [hlog2] at hrun
                  cases hrun
                  rfl
            · rw [if_neg hcs] at hrun
              dsimp only at hrun
              rw [if_pos rfl] at hrun
              rcases hlog2 : logBufferE (st.buffer ++ [({ status := true, time := rtimes.getD i 0, spike_avg := ravgs.getD i 0, confirm_results := rs, pass_val := dynPassVal (avgBefore st) thr, pass_count := pc } : Entry)]) true with e2 | ev3
              · rw [hlog2] at hrun
                cases hrun
              · rw [hlog2] at hrun
                cases hrun
                rfl
      · rw [if_neg hc] at hrun
        exact ih _ _ _ hrun

theorem dedup_best_fail_witness :
    ([entA] ≠ []) ∧ (∀ e ∈ [entA], e.status = false) ∧
    ((bestFail [entA]).pass_val ≠ PassVal.ninfStr) ∧
    logBufferE [entA] false = .ok [bestFail [entA]] :=
  ⟨by decide, by decide, by decide,
    dedup_best_fail.1 [entA] (by decide) (by decide) (by decide)⟩
